import Mathlib

/-!
Verification of the incremental max-flow engine of the MaxFlow-AI-Visualizer
repository (`src/services/maxFlowAlgorithm.ts`, data model in `src/unnamed/part_000`,
i.e. `types.ts`).

The engine is a pure state machine `stepAlgorithm : (Graph, AlgorithmState) →
(Graph, AlgorithmState)`.  We embed it shallowly: JavaScript numbers become `ℤ`,
the `Infinity` sentinel used for the source label becomes the `EFlow.inf`
constructor, JavaScript `Set` becomes a duplicate-free insertion list (only
membership and insertion are used), and the human-readable log strings become a
`LogEntry` inductive that records the message template together with its
interpolated values.  A JavaScript runtime exception (a `TypeError` from the
non-null assertions in the source, or divergence of the backtracking `while`
loop) is modelled by the step function returning `none`.
-/

set_option maxHeartbeats 1600000

namespace MaxFlowViz

/-- Phase of the engine state machine (`AlgorithmPhase` in `types.ts`). -/
inductive AlgorithmPhase
  | IDLE
  | LABELING
  | AUGMENTING
  | FINISHED
deriving DecidableEq, Repr

/-- Direction tag of a node label (`'+' | '-'` in `types.ts`). -/
inductive Dir
  | plus
  | minus
deriving DecidableEq, Repr

/-- A label `flow` value: a JavaScript number that is either `Infinity`
(the sentinel installed on the source) or finite. -/
inductive EFlow
  | inf
  | fin (q : ℤ)
deriving DecidableEq, Repr

/-- `Math.min(a, b)` where `a` may be `Infinity` and `b` is finite;
the result is always finite. -/
def EFlow.minFin : EFlow → ℤ → ℤ
  | .inf, b => b
  | .fin a, b => min a b

/-- A node label (`Node.label` in `types.ts`). -/
structure Label where
  prevNodeId : Option String
  direction : Dir
  flow : EFlow
deriving DecidableEq, Repr

/-- A graph node (`Node` in `types.ts`). -/
structure Node where
  id : String
  x : ℤ
  y : ℤ
  label : Option Label
  isSource : Bool
  isSink : Bool
deriving DecidableEq, Repr

/-- A directed capacitated edge (`Edge` in `types.ts`). -/
structure Edge where
  id : String
  source : String
  target : String
  capacity : ℤ
  flow : ℤ
deriving DecidableEq, Repr

/-- A graph (`Graph` in `types.ts`). -/
structure Graph where
  nodes : List Node
  edges : List Edge
deriving DecidableEq, Repr

/-- One entry of the `logs` list.  The source stores Chinese template strings
with interpolated numbers; each constructor records one template together with
its interpolated values, so log equality in our model coincides with log-string
equality in the source. -/
inductive LogEntry
  | init
  | newRound
  | finishedLog (maxFlow : ℤ)
  | sinkFound (bottleneck : Option ℤ)
  | expanded (uId : String)
  | augmented (amount total : ℤ)
deriving DecidableEq, Repr

/-- The engine state (`AlgorithmState` in `types.ts`).  `visited` is a
JavaScript `Set` in the source; only membership tests and insertions are
performed on it, so a duplicate-free insertion-ordered list is a faithful
model. -/
structure AlgorithmState where
  phase : AlgorithmPhase
  queue : List String
  pathFound : Option (List String)
  bottleneck : Option ℤ
  visited : List String
  maxFlow : ℤ
  logs : List LogEntry
deriving DecidableEq, Repr

/-- `initializeAlgorithm` from `maxFlowAlgorithm.ts`. -/
def initAlgorithm : AlgorithmState :=
  { phase := .IDLE
    queue := []
    pathFound := none
    bottleneck := none
    visited := []
    maxFlow := 0
    logs := [.init] }

/-- `clearLabels` from `maxFlowAlgorithm.ts`: every node loses its label,
except sources, which get the sentinel `{prevNodeId: null, '+', Infinity}`. -/
def clearLabels (nodes : List Node) : List Node :=
  nodes.map fun n =>
    { n with label := if n.isSource then some ⟨none, .plus, .inf⟩ else none }

/-- The accumulator of one node expansion during LABELING: the mutable local
variables `newNodes`, `newQueue`, `newVisited`, `sinkReached`, `newPath`,
`newBottleneck`, `neighborsFound` of `stepAlgorithm`. -/
structure ExpandAcc where
  nodes : List Node
  queue : List String
  visited : List String
  sinkReached : Bool
  pathFound : Option (List String)
  bottleneck : Option ℤ
  neighborsFound : Bool
deriving DecidableEq, Repr

/-- Replace the label of the first node whose id is `targetId`
 (the `newNodes.findIndex` / assignment in `labelNode`); returns the updated
list together with the updated node, or `none` when no node matches. -/
def replaceFirst (targetId : String) (lbl : Label) : List Node → Option (List Node × Node)
  | [] => none
  | n :: ns =>
    if n.id = targetId then
      let n2 := { n with label := some lbl }
      some (n2 :: ns, n2)
    else
      match replaceFirst targetId lbl ns with
      | some (ns2, t) => some (n :: ns2, t)
      | none => none

/-- The backtracking `while (curr.id !== 's')` loop of the path
reconstruction inside `labelNode`.  The source compares against the hardcoded
id `"s"`; a missing label, a `null` `prevNodeId`, or an unknown predecessor id
makes the JavaScript loop dereference `undefined` on its next iteration
(a thrown `TypeError`), modelled as `none`.  The loop is also not guaranteed
to terminate on adversarial label cycles; the fuel (always instantiated to
`nodes.length + 1`, enough for any cycle-free label chain) maps that
divergence to `none` as well. -/
def backtrack (nodes : List Node) : Nat → Node → List String → Option (List String)
  | fuel, curr, path =>
    if curr.id = "s" then some path
    else
      match fuel with
      | 0 => none
      | fuel2 + 1 =>
        match curr.label with
        | none => none
        | some lbl =>
          match lbl.prevNodeId with
          | none => none
          | some prevId =>
            match nodes.find? (fun n => n.id = prevId) with
            | none => none
            | some prev => backtrack nodes fuel2 prev (prevId :: path)

/-- `labelNode` from `stepAlgorithm`'s LABELING branch.  `uFlow` is the value
of `u.label!.flow` as an `Option`: `none` means the expanded node `u` is absent
or unlabeled, in which case actually labeling a neighbor dereferences
`undefined` in the source (modelled `none`). -/
def labelNode (uId : String) (uFlow : Option EFlow) (d : Dir) (flowAvailable : ℤ)
    (targetId : String) (acc : ExpandAcc) : Option ExpandAcc :=
  match acc.nodes.findIdx? (fun n => n.id = targetId) with
  | none => some acc
  | some _ =>
    if acc.visited.contains targetId then some acc
    else
      match uFlow with
      | none => none
      | some uf =>
        match replaceFirst targetId ⟨some uId, d, .fin (uf.minFin flowAvailable)⟩ acc.nodes with
        | none => some acc
        | some (ns2, t2) =>
          if t2.isSink then
            match backtrack ns2 (ns2.length + 1) t2 [targetId] with
            | none => none
            | some p =>
              some { acc with
                      nodes := ns2
                      visited := acc.visited ++ [targetId]
                      queue := acc.queue ++ [targetId]
                      neighborsFound := true
                      sinkReached := true
                      pathFound := some p
                      bottleneck := some (uf.minFin flowAvailable) }
          else
            some { acc with
                    nodes := ns2
                    visited := acc.visited ++ [targetId]
                    queue := acc.queue ++ [targetId]
                    neighborsFound := true }

/-- Processing of one edge during the expansion of `u`: the loop bodies of the
"Forward check" (`isForward = true`) and "Backward check" (`isForward = false`)
`forEach` loops, including their `!sinkReached` short-circuit. -/
def expandEdge (uId : String) (uFlow : Option EFlow) (isForward : Bool) (e : Edge)
    (acc : ExpandAcc) : Option ExpandAcc :=
  if acc.sinkReached then some acc
  else if isForward then
    if e.flow < e.capacity then labelNode uId uFlow .plus (e.capacity - e.flow) e.target acc
    else some acc
  else
    if 0 < e.flow then labelNode uId uFlow .minus e.flow e.source acc
    else some acc

/-- The full expansion of the dequeued node `u`: the forward `forEach` over
`edges.filter(e => e.source === uId)` followed by the backward `forEach` over
`edges.filter(e => e.target === uId)`. -/
def expandNode (edges : List Edge) (uId : String) (uFlow : Option EFlow)
    (acc : ExpandAcc) : Option ExpandAcc := do
  let acc1 ← (edges.filter (fun e => e.source = uId)).foldlM
    (fun a e => expandEdge uId uFlow true e a) acc
  (edges.filter (fun e => e.target = uId)).foldlM
    (fun a e => expandEdge uId uFlow false e a) acc1

/-- `u.label!.flow` for the node with id `uId`:
`none` when the node is missing or unlabeled. -/
def uFlowOf (nodes : List Node) (uId : String) : Option EFlow :=
  ((nodes.find? (fun n => n.id = uId)).bind Node.label).map Label.flow

/-- The IDLE / FINISHED branch of `stepAlgorithm`: clear labels, find the
source, start a new labeling round; a silent no-op when no source exists. -/
def startRound (g : Graph) (s : AlgorithmState) : Graph × AlgorithmState :=
  match (clearLabels g.nodes).find? (fun n => n.isSource) with
  | none => (g, s)
  | some src =>
    ({ g with nodes := clearLabels g.nodes },
     { s with
        phase := .LABELING
        queue := [src.id]
        visited := [src.id]
        pathFound := none
        bottleneck := none
        logs := s.logs ++ [.newRound] })

/-- The LABELING branch of `stepAlgorithm`. -/
def labelingStep (g : Graph) (s : AlgorithmState) : Option (Graph × AlgorithmState) :=
  match s.queue with
  | [] =>
    some (g, { s with phase := .FINISHED, logs := s.logs ++ [.finishedLog s.maxFlow] })
  | uId :: rest =>
    match expandNode g.edges uId (uFlowOf g.nodes uId)
        { nodes := g.nodes, queue := rest, visited := s.visited, sinkReached := false,
          pathFound := none, bottleneck := none, neighborsFound := false } with
    | none => none
    | some acc =>
      if acc.sinkReached then
        some ({ g with nodes := acc.nodes },
          { s with
              phase := .AUGMENTING
              queue := []
              pathFound := acc.pathFound
              bottleneck := acc.bottleneck
              visited := acc.visited
              logs := s.logs ++ [.sinkFound acc.bottleneck] })
      else
        some ({ g with nodes := acc.nodes },
          { s with
              queue := acc.queue
              visited := acc.visited
              logs := if acc.neighborsFound then s.logs ++ [.expanded uId] else s.logs })

/-- Add `d` to the flow of the first edge satisfying `p`
(`newEdges.findIndex` followed by the `+=` / `-=` update);
`none` when no edge matches. -/
def bumpFirst (p : Edge → Bool) (d : ℤ) : List Edge → Option (List Edge)
  | [] => none
  | e :: es =>
    if p e then some ({ e with flow := e.flow + d } :: es)
    else (bumpFirst p d es).map (e :: ·)

/-- The body of the augmentation loop for one consecutive pair `(u, v)` of the
path: bump the first forward edge `u→v` by `+b`; otherwise bump the first
backward edge `v→u` by `-b`; otherwise leave the edges unchanged. -/
def augmentPair (u v : String) (b : ℤ) (edges : List Edge) : List Edge :=
  match bumpFirst (fun e => e.source = u && e.target = v) b edges with
  | some es => es
  | none =>
    match bumpFirst (fun e => e.source = v && e.target = u) (-b) edges with
    | some es => es
    | none => edges

/-- The augmentation loop over all consecutive pairs of the path. -/
def augmentAlongPath (b : ℤ) : List String → List Edge → List Edge
  | u :: v :: rest, edges => augmentAlongPath b (v :: rest) (augmentPair u v b edges)
  | _, edges => edges

/-- The AUGMENTING branch of `stepAlgorithm`. -/
def augmentingStep (g : Graph) (s : AlgorithmState) : Graph × AlgorithmState :=
  match s.pathFound, s.bottleneck with
  | some p, some b =>
    ({ g with edges := augmentAlongPath b p g.edges },
     { s with
        phase := .IDLE
        maxFlow := s.maxFlow + b
        pathFound := none
        bottleneck := none
        logs := s.logs ++ [.augmented b (s.maxFlow + b)] })
  | _, _ => (g, s)

/-- `stepAlgorithm` from `maxFlowAlgorithm.ts`.  `none` models a thrown
JavaScript exception (or divergence of the backtracking loop). -/
def stepAlgorithm (g : Graph) (s : AlgorithmState) : Option (Graph × AlgorithmState) :=
  match s.phase with
  | .IDLE => some (startRound g s)
  | .FINISHED => some (startRound g s)
  | .LABELING => labelingStep g s
  | .AUGMENTING => some (augmentingStep g s)

/-- `n` consecutive `step` calls, propagating failure. -/
def stepsN : Nat → Graph → AlgorithmState → Option (Graph × AlgorithmState)
  | 0, g, s => some (g, s)
  | n + 1, g, s =>
    match stepAlgorithm g s with
    | none => none
    | some (g2, s2) => stepsN n g2 s2

/-! ## Specification-side definitions

The following definitions are written from the specification's words, to be
compared with the embedding of the source above: the residual accessor of
§4.1 (for stating path validity), the min-cut capacity of §8/glossary (for
stating termination correctness), and the single ordered expansion pass of
§4.2 (for the refinement claim about the LABELING step). -/

/-- The residual datum a forward edge of `u` contributes during its
expansion: when `e.flow < e.capacity`, the target may be labeled `+` with
residual capacity `e.capacity - e.flow`. -/
def fwdItem (e : Edge) : Option (Dir × String × ℤ) :=
  if e.flow < e.capacity then some (.plus, e.target, e.capacity - e.flow) else none

/-- The residual datum a backward edge of `u` contributes during its
expansion: when `0 < e.flow`, the source may be labeled `-` with residual
capacity `e.flow`. -/
def bwdItem (e : Edge) : Option (Dir × String × ℤ) :=
  if 0 < e.flow then some (.minus, e.source, e.flow) else none

/-- All labeling opportunities of the expansion of `u`, forward residual
edges first and then backward residual edges, both in edge-list order
(spec §4.2). -/
def residualItems (edges : List Edge) (uId : String) : List (Dir × String × ℤ) :=
  (edges.filter (fun e => e.source = uId)).filterMap fwdItem
    ++ (edges.filter (fun e => e.target = uId)).filterMap bwdItem

/-- Modelled from the spec (§4.2, claim C5): process the labeling
opportunities one after the other in their given order, labeling each
unvisited neighbor, and stop the expansion as soon as the sink has been
labeled — an early exit instead of the source's per-iteration flag check. -/
def specExpandGo (uId : String) (uFlow : Option EFlow) :
    List (Dir × String × ℤ) → ExpandAcc → Option ExpandAcc
  | [], acc => some acc
  | (d, tid, r) :: rest, acc =>
    if acc.sinkReached then some acc
    else
      match labelNode uId uFlow d r tid acc with
      | none => none
      | some acc2 => specExpandGo uId uFlow rest acc2

/-- Modelled from the spec (§4.2, claim C5): the whole LABELING transition
for a non-empty queue `u :: rest`, described the way the claim words it:
remove the front node `u`, expand it through `specExpandGo` over
`residualItems` (forward residual edges first, then backward, both in
edge-list order, stopping once the sink is labeled), then either transition
to AUGMENTING with a cleared queue or stay in LABELING with the updated
queue and visited set. -/
def specLabelingStep (g : Graph) (s : AlgorithmState) (u : String) (rest : List String) :
    Option (Graph × AlgorithmState) :=
  match specExpandGo u (uFlowOf g.nodes u) (residualItems g.edges u)
      { nodes := g.nodes, queue := rest, visited := s.visited, sinkReached := false,
        pathFound := none, bottleneck := none, neighborsFound := false } with
  | none => none
  | some acc =>
    if acc.sinkReached then
      some ({ g with nodes := acc.nodes },
        { s with
            phase := .AUGMENTING
            queue := []
            pathFound := acc.pathFound
            bottleneck := acc.bottleneck
            visited := acc.visited
            logs := s.logs ++ [.sinkFound acc.bottleneck] })
    else
      some ({ g with nodes := acc.nodes },
        { s with
            queue := acc.queue
            visited := acc.visited
            logs := if acc.neighborsFound then s.logs ++ [.expanded u] else s.logs })

/-- Modelled from the spec (§4.1, claim C4): the residual capacity offered by
a consecutive path pair `(u, v)` — the residual capacity of the first forward
residual edge `u→v`, else of the first backward residual edge `v→u`, else
`none`. -/
def pairResidual (edges : List Edge) (u v : String) : Option ℤ :=
  match edges.find? (fun e => e.source = u && e.target = v && decide (e.flow < e.capacity)) with
  | some e => some (e.capacity - e.flow)
  | none =>
    match edges.find? (fun e => e.source = v && e.target = u && decide (0 < e.flow)) with
    | some e => some e.flow
    | none => none

/-- The residual capacities of all consecutive pairs of a path. -/
def pathResiduals (edges : List Edge) : List String → List (Option ℤ)
  | u :: v :: rest => pairResidual edges u v :: pathResiduals edges (v :: rest)
  | _ => []

/-- Modelled from the spec (glossary, claim C6): the capacity of the cut
induced by a set `S` of node ids — the total capacity of edges leaving `S`. -/
def cutCapacity (g : Graph) (S : List String) : ℤ :=
  ((g.edges.filter (fun e => S.contains e.source && !(S.contains e.target))).map
    Edge.capacity).sum

/-- A valid cut: `S` contains every source-flagged node and no sink-flagged
node. -/
def isValidCut (g : Graph) (S : List String) : Bool :=
  g.nodes.all (fun n => (!n.isSource || S.contains n.id) && (!n.isSink || !(S.contains n.id)))

/-- Modelled from the spec (§8, claim C6): the min-cut capacity of the graph —
the minimum of `cutCapacity` over all valid cuts. -/
def minCutCapacity (g : Graph) : Option ℤ :=
  (((g.nodes.map Node.id).sublists.filter (isValidCut g)).map (cutCapacity g)).min?

/-! ## Frame observables (claim C9) -/

/-- Everything of a node except its `label`: the engine must never edit it. -/
def nodeShape (n : Node) : String × ℤ × ℤ × Bool × Bool :=
  (n.id, n.x, n.y, n.isSource, n.isSink)

/-- Everything of an edge except its `flow`: the engine must never edit it. -/
def edgeShape (e : Edge) : String × String × String × ℤ :=
  (e.id, e.source, e.target, e.capacity)

/-! ## Concrete inputs used in counterexamples and witnesses -/

/-- A node without a label. -/
def mkNode (i : String) (src snk : Bool) : Node := ⟨i, 0, 0, none, src, snk⟩

/-- One source node `s`, no edges. -/
def gSrcOnly : Graph := ⟨[mkNode "s" true false], []⟩

/-- A FINISHED engine state. -/
def sFinished : AlgorithmState :=
  { phase := .FINISHED
    queue := []
    pathFound := none
    bottleneck := none
    visited := []
    maxFlow := 0
    logs := [] }

/-- Two parallel edges `s→t` (capacities 5 and 3): the graph on which the
augmenter pushes flow past capacity (claim C2). -/
def gParallel : Graph :=
  ⟨[mkNode "s" true false, mkNode "t" false true],
   [⟨"e1", "s", "t", 5, 0⟩, ⟨"e2", "s", "t", 3, 0⟩]⟩

/-- A well-formed graph whose source has id `"a"` instead of `"s"`
(the editor's SET_SOURCE tool can flag any node): path reconstruction
crashes on it (claim C3). -/
def gSourceA : Graph :=
  ⟨[mkNode "a" true false, mkNode "b" false true],
   [⟨"e1", "a", "b", 1, 0⟩]⟩

/-- Source `x`, an ordinary intermediate node that happens to be named `s`,
sink `t`: backtracking stops at the hardcoded id `"s"`, truncating the path
(claim C4). -/
def gMidS : Graph :=
  ⟨[mkNode "x" true false, mkNode "s" false false, mkNode "t" false true],
   [⟨"e1", "x", "s", 2, 0⟩, ⟨"e2", "s", "t", 10, 0⟩]⟩

/-- Parallel edges `s→a` (capacities 3 and 5) followed by `a→t` (capacity 10):
the run terminates with `maxFlow = 10` although the min cut is `8`
(claim C6). -/
def gMincut : Graph :=
  ⟨[mkNode "s" true false, mkNode "a" false false, mkNode "t" false true],
   [⟨"e1", "s", "a", 3, 0⟩, ⟨"e2", "s", "a", 5, 0⟩, ⟨"e3", "a", "t", 10, 0⟩]⟩

/-- An adversarial AUGMENTING state carrying a negative bottleneck
(claim C7's counterexample). -/
def sNegBottleneck : AlgorithmState :=
  { phase := .AUGMENTING
    queue := []
    pathFound := some []
    bottleneck := some (-1)
    visited := []
    maxFlow := 0
    logs := [] }

/-- A graph with no source-flagged node (claim C8's witness). -/
def gNoSource : Graph := ⟨[mkNode "t" false true], []⟩

/-- The graph produced by the first step on `gSrcOnly`: the source carries
the sentinel label (claim C7's and C9's witnesses). -/
def gAfterInit : Graph := ⟨[⟨"s", 0, 0, some ⟨none, .plus, .inf⟩, true, false⟩], []⟩

/-- The state produced by the first step on `gSrcOnly` from the initial
state (claim C7's and C9's witnesses). -/
def sAfterInit : AlgorithmState :=
  { phase := .LABELING
    queue := ["s"]
    pathFound := none
    bottleneck := none
    visited := ["s"]
    maxFlow := 0
    logs := [.init, .newRound] }

/-- A labeled source `s` and a sink `t` joined by one edge, together with a
LABELING state about to expand `s` (claim C5's witness). -/
def gLabeled : Graph :=
  ⟨[⟨"s", 0, 0, some ⟨none, .plus, .inf⟩, true, false⟩, mkNode "t" false true],
   [⟨"e1", "s", "t", 5, 0⟩]⟩

/-- The LABELING state whose queue holds the source (claim C5's witness). -/
def sLabeling : AlgorithmState :=
  { phase := .LABELING
    queue := ["s"]
    pathFound := none
    bottleneck := none
    visited := ["s"]
    maxFlow := 0
    logs := [] }

/-- A graph and an AUGMENTING state whose path mentions a pair with no
matching edge (claim C10's witness). -/
def gOneEdge : Graph := ⟨[], [⟨"e1", "s", "t", 5, 0⟩]⟩

/-- AUGMENTING state whose path `["s", "q", "t"]` contains the pair
`("s", "q")` matched by no edge (claim C10's witness). -/
def sBadPath : AlgorithmState :=
  { phase := .AUGMENTING
    queue := []
    pathFound := some ["s", "q", "t"]
    bottleneck := some 2
    visited := []
    maxFlow := 0
    logs := [] }

/-! ## Helper lemmas -/

theorem expandEdge_of_sinkReached (uId : String) (uFlow : Option EFlow) (b : Bool) (e : Edge)
    (acc : ExpandAcc) (h : acc.sinkReached = true) :
    expandEdge uId uFlow b e acc = some acc := by
  simp [expandEdge, h]

theorem foldl_expandEdge_of_sinkReached (uId : String) (uFlow : Option EFlow) (b : Bool)
    (l : List Edge) (acc : ExpandAcc) (h : acc.sinkReached = true) :
    l.foldlM (fun a e => expandEdge uId uFlow b e a) acc = some acc := by
  induction l with
  | nil => rfl
  | cons e l ih => simp [List.foldlM_cons, expandEdge_of_sinkReached uId uFlow b e acc h, ih]

theorem specExpandGo_of_sinkReached (uId : String) (uFlow : Option EFlow)
    (l : List (Dir × String × ℤ)) (acc : ExpandAcc) (h : acc.sinkReached = true) :
    specExpandGo uId uFlow l acc = some acc := by
  cases l with
  | nil => rfl
  | cons x l => obtain ⟨d, tid, r⟩ := x; simp [specExpandGo, h]

theorem specExpandGo_append (uId : String) (uFlow : Option EFlow)
    (l1 l2 : List (Dir × String × ℤ)) (acc : ExpandAcc) :
    specExpandGo uId uFlow (l1 ++ l2) acc
      = (specExpandGo uId uFlow l1 acc).bind (specExpandGo uId uFlow l2) := by
  induction l1 generalizing acc with
  | nil => simp [specExpandGo]
  | cons x l1 ih =>
    obtain ⟨d, tid, r⟩ := x
    cases hs : acc.sinkReached with
    | true =>
      simp [specExpandGo, hs, specExpandGo_of_sinkReached uId uFlow l2 acc hs]
    | false =>
      simp only [List.cons_append, specExpandGo, hs, Bool.false_eq_true, if_false]
      cases labelNode uId uFlow d r tid acc with
      | none => rfl
      | some acc2 => simpa using ih acc2

theorem foldl_fwd_eq_spec (uId : String) (uFlow : Option EFlow) (l : List Edge)
    (acc : ExpandAcc) :
    l.foldlM (fun a e => expandEdge uId uFlow true e a) acc
      = specExpandGo uId uFlow (l.filterMap fwdItem) acc := by
  induction l generalizing acc with
  | nil => rfl
  | cons e l ih =>
    rw [List.foldlM_cons]
    cases hs : acc.sinkReached with
    | true =>
      rw [expandEdge_of_sinkReached uId uFlow true e acc hs]
      simp [foldl_expandEdge_of_sinkReached uId uFlow true l acc hs,
        specExpandGo_of_sinkReached uId uFlow _ acc hs]
    | false =>
      by_cases hr : e.flow < e.capacity
      · have he : expandEdge uId uFlow true e acc
            = labelNode uId uFlow .plus (e.capacity - e.flow) e.target acc := by
          simp [expandEdge, hs, hr]
        have hi : (e :: l).filterMap fwdItem
            = (Dir.plus, e.target, e.capacity - e.flow) :: l.filterMap fwdItem := by
          simp [List.filterMap_cons, fwdItem, hr]
        rw [he, hi]
        simp only [specExpandGo, hs, Bool.false_eq_true, if_false]
        cases labelNode uId uFlow .plus (e.capacity - e.flow) e.target acc with
        | none => rfl
        | some acc2 => simpa using ih acc2
      · have he : expandEdge uId uFlow true e acc = some acc := by
          simp [expandEdge, hs, hr]
        have hi : (e :: l).filterMap fwdItem = l.filterMap fwdItem := by
          simp [List.filterMap_cons, fwdItem, hr]
        rw [he, hi]
        simpa using ih acc

theorem foldl_bwd_eq_spec (uId : String) (uFlow : Option EFlow) (l : List Edge)
    (acc : ExpandAcc) :
    l.foldlM (fun a e => expandEdge uId uFlow false e a) acc
      = specExpandGo uId uFlow (l.filterMap bwdItem) acc := by
  induction l generalizing acc with
  | nil => rfl
  | cons e l ih =>
    rw [List.foldlM_cons]
    cases hs : acc.sinkReached with
    | true =>
      rw [expandEdge_of_sinkReached uId uFlow false e acc hs]
      simp [foldl_expandEdge_of_sinkReached uId uFlow false l acc hs,
        specExpandGo_of_sinkReached uId uFlow _ acc hs]
    | false =>
      by_cases hr : (0 : ℤ) < e.flow
      · have he : expandEdge uId uFlow false e acc
            = labelNode uId uFlow .minus e.flow e.source acc := by
          simp [expandEdge, hs, hr]
        have hi : (e :: l).filterMap bwdItem
            = (Dir.minus, e.source, e.flow) :: l.filterMap bwdItem := by
          simp [List.filterMap_cons, bwdItem, hr]
        rw [he, hi]
        simp only [specExpandGo, hs, Bool.false_eq_true, if_false]
        cases labelNode uId uFlow .minus e.flow e.source acc with
        | none => rfl
        | some acc2 => simpa using ih acc2
      · have he : expandEdge uId uFlow false e acc = some acc := by
          simp [expandEdge, hs, hr]
        have hi : (e :: l).filterMap bwdItem = l.filterMap bwdItem := by
          simp [List.filterMap_cons, bwdItem, hr]
        rw [he, hi]
        simpa using ih acc

theorem expandNode_eq_spec (edges : List Edge) (uId : String) (uFlow : Option EFlow)
    (acc : ExpandAcc) :
    expandNode edges uId uFlow acc
      = specExpandGo uId uFlow (residualItems edges uId) acc := by
  unfold expandNode residualItems
  rw [specExpandGo_append, foldl_fwd_eq_spec]
  cases specExpandGo uId uFlow ((edges.filter (fun e => e.source = uId)).filterMap fwdItem) acc with
  | none => rfl
  | some acc1 => simpa using foldl_bwd_eq_spec uId uFlow _ acc1

theorem stepAlgorithm_IDLE (g : Graph) (s : AlgorithmState) (hp : s.phase = .IDLE) :
    stepAlgorithm g s = some (startRound g s) := by
  unfold stepAlgorithm; rw [hp]

theorem stepAlgorithm_FINISHED (g : Graph) (s : AlgorithmState) (hp : s.phase = .FINISHED) :
    stepAlgorithm g s = some (startRound g s) := by
  unfold stepAlgorithm; rw [hp]

theorem stepAlgorithm_LABELING (g : Graph) (s : AlgorithmState) (hp : s.phase = .LABELING) :
    stepAlgorithm g s = labelingStep g s := by
  unfold stepAlgorithm; rw [hp]

theorem stepAlgorithm_AUGMENTING (g : Graph) (s : AlgorithmState) (hp : s.phase = .AUGMENTING) :
    stepAlgorithm g s = some (augmentingStep g s) := by
  unfold stepAlgorithm; rw [hp]

/-! ## Claim C5 -/

/-- C5: for every LABELING step with a non-empty queue, `step` removes the
front node `u` from the queue and — processing forward residual edges first
and then backward residual edges, both in edge-list order — labels each
unvisited neighbor `v` with `{prevNodeId: u, direction, flow: min(u.label.flow,
residual)}`, marks it visited and appends it to the queue tail, and once the
sink is labeled no further node is labeled in the same expansion: the source's
two flag-guarded loops compute exactly the specification's single ordered pass
with early exit (`specLabelingStep`). -/
theorem C5_labeling_step_follows_spec (g : Graph) (s : AlgorithmState) (u : String)
    (rest : List String) (hp : s.phase = .LABELING) (hq : s.queue = u :: rest) :
    stepAlgorithm g s = specLabelingStep g s u rest := by
  have h1 : stepAlgorithm g s = labelingStep g s := by
    unfold stepAlgorithm; rw [hp]
  rw [h1]
  unfold labelingStep specLabelingStep
  rw [hq]
  simp only [expandNode_eq_spec]

/-- Witness for C5 at a concrete LABELING state: expanding the labeled source
`s` of `gLabeled`. -/
theorem C5_labeling_step_follows_spec_witness :
    stepAlgorithm gLabeled sLabeling = specLabelingStep gLabeled sLabeling "s" [] :=
  C5_labeling_step_follows_spec gLabeled sLabeling "s" [] rfl rfl

/-! ## Claim C1 -/

/-- C1 counterexample: stepping the FINISHED state on a graph with a source is
not a no-op — the claim "step after FINISHED returns a state/graph identical
to the input" is false on the code. -/
theorem C1_step_after_FINISHED_not_noop :
    stepAlgorithm gSrcOnly sFinished ≠ some (gSrcOnly, sFinished) := by
  decide

/-- C1 amended: the FINISHED phase does not self-loop; `step` treats it
exactly like IDLE.  On any graph with a source node, stepping a FINISHED
state starts a new labeling round (the result coincides with stepping the
same state in phase IDLE, and the resulting phase is LABELING); only when no
source exists is the call a no-op. -/
theorem C1_FINISHED_behaves_like_IDLE (g : Graph) (s : AlgorithmState)
    (hp : s.phase = .FINISHED) (hsrc : ∃ n ∈ g.nodes, n.isSource = true) :
    stepAlgorithm g s = stepAlgorithm g { s with phase := .IDLE } ∧
    ∀ r, stepAlgorithm g s = some r → r.2.phase = .LABELING := by
  have hfind : ∃ src, (clearLabels g.nodes).find? (fun n => n.isSource) = some src := by
    rw [← Option.isSome_iff_exists, List.find?_isSome]
    obtain ⟨n, hn, hs⟩ := hsrc
    exact ⟨{ n with label := if n.isSource then some ⟨none, .plus, .inf⟩ else none },
      List.mem_map_of_mem _ hn, by simpa using hs⟩
  obtain ⟨src, hfind⟩ := hfind
  have hFIN : stepAlgorithm g s = some (startRound g s) := by
    unfold stepAlgorithm; rw [hp]
  have hIDLE : stepAlgorithm g { s with phase := .IDLE }
      = some (startRound g { s with phase := .IDLE }) := rfl
  have hsame : startRound g { s with phase := .IDLE } = startRound g s := by
    unfold startRound; rw [hfind]
  constructor
  · rw [hFIN, hIDLE, hsame]
  · intro r hr
    rw [hFIN] at hr
    injection hr with hr
    rw [← hr]
    unfold startRound
    rw [hfind]

/-- Witness for C1's amended theorem at the concrete FINISHED state. -/
theorem C1_FINISHED_behaves_like_IDLE_witness :
    stepAlgorithm gSrcOnly sFinished = stepAlgorithm gSrcOnly { sFinished with phase := .IDLE } :=
  (C1_FINISHED_behaves_like_IDLE gSrcOnly sFinished rfl
    ⟨mkNode "s" true false, by decide, rfl⟩).1

/-! ## Claim C7 -/

/-- C7 counterexample: `maxFlow` is not non-decreasing for *every* input
state — an AUGMENTING state carrying a negative `bottleneck` decreases it
(from 0 to -1). -/
theorem C7_negative_bottleneck_decreases_maxFlow :
    (stepAlgorithm gSrcOnly sNegBottleneck).map (fun r => r.2.maxFlow) = some (-1) ∧
    sNegBottleneck.maxFlow = 0 := by
  decide

/-- C7 amended: for every input whose `bottleneck`, when present, is
non-negative (as in every state the engine itself produces), the `maxFlow`
of the state returned by `step` is greater than or equal to the input
`maxFlow`. -/
theorem C7_maxFlow_monotone (g : Graph) (s : AlgorithmState) (g2 : Graph)
    (s2 : AlgorithmState) (hb : ∀ b, s.bottleneck = some b → 0 ≤ b)
    (h : stepAlgorithm g s = some (g2, s2)) : s.maxFlow ≤ s2.maxFlow := by
  cases hp : s.phase
  case IDLE =>
    rw [stepAlgorithm_IDLE g s hp] at h
    injection h with h
    unfold startRound at h
    split at h
    · injection h with h1 h2; rw [← h2]
    · injection h with h1 h2; rw [← h2]
  case FINISHED =>
    rw [stepAlgorithm_FINISHED g s hp] at h
    injection h with h
    unfold startRound at h
    split at h
    · injection h with h1 h2; rw [← h2]
    · injection h with h1 h2; rw [← h2]
  case LABELING =>
    rw [stepAlgorithm_LABELING g s hp] at h
    unfold labelingStep at h
    split at h
    · injection h with h
      injection h with h1 h2
      rw [← h2]
    · split at h
      · cases h
      · split at h
        · injection h with h
          injection h with h1 h2
          rw [← h2]
        · injection h with h
          injection h with h1 h2
          rw [← h2]
  case AUGMENTING =>
    rw [stepAlgorithm_AUGMENTING g s hp] at h
    injection h with h
    unfold augmentingStep at h
    split at h
    · next p b hpf hbe =>
      injection h with h1 h2
      rw [← h2]
      have hbb := hb b hbe
      show s.maxFlow ≤ s.maxFlow + b
      omega
    · injection h with h1 h2; rw [← h2]

/-- Witness for C7's amended theorem: the first step from the initial state
on `gSrcOnly` (bottleneck absent) does not decrease `maxFlow`. -/
theorem C7_maxFlow_monotone_witness : initAlgorithm.maxFlow ≤ sAfterInit.maxFlow :=
  C7_maxFlow_monotone gSrcOnly initAlgorithm gAfterInit sAfterInit
    (by intro b hb; simp [initAlgorithm] at hb) (by decide)

/-! ## Claim C8 -/

/-- C8: for every state in phase IDLE or FINISHED and every graph with no
source-flagged node, `step` returns the input graph and state entirely
unchanged — a silent no-op, with no phase change and no log appended. -/
theorem C8_no_source_noop (g : Graph) (s : AlgorithmState)
    (hp : s.phase = .IDLE ∨ s.phase = .FINISHED)
    (hn : ∀ n ∈ g.nodes, n.isSource = false) :
    stepAlgorithm g s = some (g, s) := by
  have hfind : (clearLabels g.nodes).find? (fun n => n.isSource) = none := by
    apply List.find?_eq_none.mpr
    intro x hx
    simp only [clearLabels, List.mem_map] at hx
    obtain ⟨n, hmem, rfl⟩ := hx
    simp [hn n hmem]
  have hstart : startRound g s = (g, s) := by
    unfold startRound; rw [hfind]
  rcases hp with hp | hp <;> · unfold stepAlgorithm; rw [hp, hstart]

/-- Witness for C8 at a concrete sourceless graph and FINISHED state. -/
theorem C8_no_source_noop_witness : stepAlgorithm gNoSource sFinished = some (gNoSource, sFinished) :=
  C8_no_source_noop gNoSource sFinished (Or.inr rfl) (by decide)

/-! ## Claim C9 -/

theorem clearLabels_shape (ns : List Node) :
    (clearLabels ns).map nodeShape = ns.map nodeShape := by
  induction ns with
  | nil => rfl
  | cons n ns ih =>
    simp only [clearLabels, List.map_cons, List.map_map] at ih ⊢
    rw [show nodeShape { n with label := if n.isSource then some ⟨none, .plus, .inf⟩ else none }
      = nodeShape n from rfl, ih]

theorem replaceFirst_shape (tid : String) (lbl : Label) (ns : List Node) :
    ∀ ns2 t, replaceFirst tid lbl ns = some (ns2, t) →
      ns2.map nodeShape = ns.map nodeShape := by
  induction ns with
  | nil => intro ns2 t h; simp [replaceFirst] at h
  | cons n ns ih =>
    intro ns2 t h
    unfold replaceFirst at h
    split at h
    · injection h with h
      injection h with h1 h2
      rw [← h1]
      simp [nodeShape]
    · split at h
      · next ns3 t3 heq =>
        injection h with h
        injection h with h1 h2
        rw [← h1]
        simpa [nodeShape] using ih ns3 t3 heq
      · cases h

theorem labelNode_shape (uId : String) (uFlow : Option EFlow) (d : Dir) (fa : ℤ)
    (tid : String) (acc acc2 : ExpandAcc)
    (h : labelNode uId uFlow d fa tid acc = some acc2) :
    acc2.nodes.map nodeShape = acc.nodes.map nodeShape := by
  unfold labelNode at h
  split at h
  · injection h with h; rw [← h]
  · split at h
    · injection h with h; rw [← h]
    · split at h
      · cases h
      · split at h
        · injection h with h; rw [← h]
        · next ns2 t2 heq =>
          split at h
          · split at h
            · cases h
            · injection h with h
              rw [← h]
              exact replaceFirst_shape _ _ _ ns2 t2 heq
          · injection h with h
            rw [← h]
            exact replaceFirst_shape _ _ _ ns2 t2 heq

theorem expandEdge_shape (uId : String) (uFlow : Option EFlow) (b : Bool) (e : Edge)
    (acc acc2 : ExpandAcc) (h : expandEdge uId uFlow b e acc = some acc2) :
    acc2.nodes.map nodeShape = acc.nodes.map nodeShape := by
  unfold expandEdge at h
  split at h
  · injection h with h; rw [← h]
  · split at h
    · split at h
      · exact labelNode_shape _ _ _ _ _ _ _ h
      · injection h with h; rw [← h]
    · split at h
      · exact labelNode_shape _ _ _ _ _ _ _ h
      · injection h with h; rw [← h]

theorem foldl_expandEdge_shape (uId : String) (uFlow : Option EFlow) (b : Bool)
    (l : List Edge) : ∀ acc acc2,
    l.foldlM (fun a e => expandEdge uId uFlow b e a) acc = some acc2 →
      acc2.nodes.map nodeShape = acc.nodes.map nodeShape := by
  induction l with
  | nil => intro acc acc2 h; injection h with h; rw [h]
  | cons e l ih =>
    intro acc acc2 h
    rw [List.foldlM_cons] at h
    cases he : expandEdge uId uFlow b e acc with
    | none => rw [he] at h; cases h
    | some acc1 =>
      rw [he] at h
      exact (ih acc1 acc2 h).trans (expandEdge_shape uId uFlow b e acc acc1 he)

theorem expandNode_shape (edges : List Edge) (uId : String) (uFlow : Option EFlow)
    (acc acc2 : ExpandAcc) (h : expandNode edges uId uFlow acc = some acc2) :
    acc2.nodes.map nodeShape = acc.nodes.map nodeShape := by
  unfold expandNode at h
  cases h1 : (edges.filter (fun e => e.source = uId)).foldlM
      (fun a e => expandEdge uId uFlow true e a) acc with
  | none => rw [h1] at h; cases h
  | some acc1 =>
    rw [h1] at h
    exact (foldl_expandEdge_shape uId uFlow false _ acc1 acc2 h).trans
      (foldl_expandEdge_shape uId uFlow true _ acc acc1 h1)

theorem bumpFirst_shape (p : Edge → Bool) (d : ℤ) (es : List Edge) :
    ∀ es2, bumpFirst p d es = some es2 → es2.map edgeShape = es.map edgeShape := by
  induction es with
  | nil => intro es2 h; simp [bumpFirst] at h
  | cons e es ih =>
    intro es2 h
    unfold bumpFirst at h
    split at h
    · injection h with h
      rw [← h]
      simp [edgeShape]
    · cases hb : bumpFirst p d es with
      | none => rw [hb] at h; cases h
      | some es3 =>
        rw [hb] at h
        injection h with h
        rw [← h]
        simpa [edgeShape] using ih es3 hb

theorem augmentPair_shape (u v : String) (b : ℤ) (es : List Edge) :
    (augmentPair u v b es).map edgeShape = es.map edgeShape := by
  unfold augmentPair
  split
  · next es2 heq => exact bumpFirst_shape _ _ _ es2 heq
  · split
    · next es2 heq => exact bumpFirst_shape _ _ _ es2 heq
    · rfl

theorem augmentAlongPath_shape (b : ℤ) :
    ∀ (path : List String) (es : List Edge),
      (augmentAlongPath b path es).map edgeShape = es.map edgeShape
  | [], es => rfl
  | [_], es => rfl
  | u :: v :: rest, es => by
    rw [augmentAlongPath]
    exact (augmentAlongPath_shape b (v :: rest) _).trans (augmentPair_shape u v b es)

/-- C9 counterexample: the returned graph is not equal to the input graph in a
non-AUGMENTING phase — the IDLE step rewrites node labels (sentinel
installation), so "in every other phase the returned graph equals the input
graph" is false on the code. -/
theorem C9_graph_changes_outside_AUGMENTING :
    (stepAlgorithm gSrcOnly initAlgorithm).map Prod.fst ≠ some gSrcOnly := by
  decide

/-- C9 amended: `step` never edits topology — node ids, positions and
source/sink flags, and edge ids, endpoints and capacities are preserved in
every phase — and the edge list (hence every flow) is returned unchanged in
every phase except AUGMENTING; only node `label` fields (any phase) and edge
`flow` fields (AUGMENTING) may change. -/
theorem C9_frame_topology_preserved (g : Graph) (s : AlgorithmState) (g2 : Graph)
    (s2 : AlgorithmState) (h : stepAlgorithm g s = some (g2, s2)) :
    g2.nodes.map nodeShape = g.nodes.map nodeShape ∧
    g2.edges.map edgeShape = g.edges.map edgeShape ∧
    (s.phase ≠ .AUGMENTING → g2.edges = g.edges) := by
  cases hp : s.phase
  case IDLE | FINISHED =>
    first
    | rw [stepAlgorithm_IDLE g s hp] at h
    | rw [stepAlgorithm_FINISHED g s hp] at h
    injection h with h
    unfold startRound at h
    split at h
    · injection h with h1 h2
      rw [← h1]
      exact ⟨rfl, rfl, fun _ => rfl⟩
    · injection h with h1 h2
      rw [← h1]
      exact ⟨clearLabels_shape g.nodes, rfl, fun _ => rfl⟩
  case LABELING =>
    rw [stepAlgorithm_LABELING g s hp] at h
    unfold labelingStep at h
    split at h
    · injection h with h
      injection h with h1 h2
      rw [← h1]
      exact ⟨rfl, rfl, fun _ => rfl⟩
    · split at h
      · cases h
      · next acc heq =>
        have hacc := expandNode_shape _ _ _ _ acc heq
        split at h
        · injection h with h
          injection h with h1 h2
          rw [← h1]
          exact ⟨hacc, rfl, fun _ => rfl⟩
        · injection h with h
          injection h with h1 h2
          rw [← h1]
          exact ⟨hacc, rfl, fun _ => rfl⟩
  case AUGMENTING =>
    rw [stepAlgorithm_AUGMENTING g s hp] at h
    injection h with h
    unfold augmentingStep at h
    split at h
    · next p b hpf hbe =>
      injection h with h1 h2
      rw [← h1]
      exact ⟨rfl, augmentAlongPath_shape b p g.edges, fun hne => absurd rfl hne⟩
    · injection h with h1 h2
      rw [← h1]
      exact ⟨rfl, rfl, fun _ => rfl⟩

/-- Witness for C9's amended theorem at the first step on `gSrcOnly`. -/
theorem C9_frame_topology_preserved_witness :
    gAfterInit.nodes.map nodeShape = gSrcOnly.nodes.map nodeShape ∧
    gAfterInit.edges.map edgeShape = gSrcOnly.edges.map edgeShape ∧
    (initAlgorithm.phase ≠ .AUGMENTING → gAfterInit.edges = gSrcOnly.edges) :=
  C9_frame_topology_preserved gSrcOnly initAlgorithm gAfterInit sAfterInit (by decide)

/-! ## Claim C10 -/

theorem bumpFirst_eq_none (p : Edge → Bool) (d : ℤ) :
    ∀ es : List Edge, (∀ e ∈ es, p e = false) → bumpFirst p d es = none := by
  intro es
  induction es with
  | nil => intro _; rfl
  | cons e es ih =>
    intro hno
    unfold bumpFirst
    rw [if_neg (by simp [hno e (List.mem_cons_self e es)]), ih]
    · rfl
    · intro e2 he2; exact hno e2 (List.mem_cons_of_mem e he2)

/-- C10: during an AUGMENTING step, a consecutive pair of `pathFound` matched
by no forward and no backward edge does not make `step` fail or signal an
error — the flows of the (non-existent) pair are left untouched
(`augmentPair` is the identity there) while the step still adds `bottleneck`
to `maxFlow`, clears `pathFound` and `bottleneck`, appends the augmentation
log, and transitions to IDLE. -/
theorem C10_missing_edge_silent_augment (g : Graph) (s : AlgorithmState)
    (p : List String) (b : ℤ) (hp : s.phase = .AUGMENTING)
    (hpf : s.pathFound = some p) (hb : s.bottleneck = some b) :
    stepAlgorithm g s = some ({ g with edges := augmentAlongPath b p g.edges },
      { s with
          phase := .IDLE
          maxFlow := s.maxFlow + b
          pathFound := none
          bottleneck := none
          logs := s.logs ++ [.augmented b (s.maxFlow + b)] }) ∧
    ∀ (es : List Edge) (x y : String),
      (∀ e ∈ es, (e.source = x && e.target = y) = false ∧
        (e.source = y && e.target = x) = false) →
      augmentPair x y b es = es := by
  constructor
  · rw [stepAlgorithm_AUGMENTING g s hp]
    unfold augmentingStep
    rw [hpf, hb]
  · intro es x y hno
    unfold augmentPair
    rw [bumpFirst_eq_none _ _ es (fun e he => (hno e he).1),
      bumpFirst_eq_none _ _ es (fun e he => (hno e he).2)]

/-- Witness for C10 at the concrete AUGMENTING state `sBadPath` whose path
pair `("s", "q")` has no matching edge in `gOneEdge`. -/
theorem C10_missing_edge_silent_augment_witness :
    stepAlgorithm gOneEdge sBadPath = some
      ({ gOneEdge with edges := augmentAlongPath 2 ["s", "q", "t"] gOneEdge.edges },
       { sBadPath with
          phase := .IDLE
          maxFlow := sBadPath.maxFlow + 2
          pathFound := none
          bottleneck := none
          logs := sBadPath.logs ++ [.augmented 2 (sBadPath.maxFlow + 2)] }) ∧
    augmentPair "s" "q" 2 gOneEdge.edges = gOneEdge.edges :=
  ⟨(C10_missing_edge_silent_augment gOneEdge sBadPath ["s", "q", "t"] 2 rfl rfl rfl).1,
   (C10_missing_edge_silent_augment gOneEdge sBadPath ["s", "q", "t"] 2 rfl rfl rfl).2
     gOneEdge.edges "s" "q" (by decide)⟩

/-! ## Claim C2 -/

/-- C2: the capacity invariant `0 ≤ flow ≤ capacity` is violated on a
reachable state.  On `gParallel` (two parallel edges `s→t` with capacities 5
and 3, flows 0), six steps from the initial state leave the first edge with
flow 8 over capacity 5: the second round labels the sink through the second
parallel edge (residual 3), but the augmenter adds the bottleneck to the
*first* edge matching `(source, target)`, which is already saturated. -/
theorem C2_capacity_invariant_violated :
    (stepsN 6 gParallel initAlgorithm).map
        (fun r => r.1.edges.map fun e => (e.flow, e.capacity, decide (0 ≤ e.flow ∧ e.flow ≤ e.capacity)))
      = some [(8, 5, false), (0, 3, true)] := by
  decide

/-! ## Claim C3 -/

/-- C3: path reconstruction does not stop at the labeled node with no
`prevNodeId` — it compares against the hardcoded id `"s"`.  On `gSourceA`
(source id `"a"`, sink `"b"`), the first step starts a labeling round
normally, and the second step — which labels the sink and reconstructs the
path — walks past the source, dereferences its `null` `prevNodeId` and
crashes (modelled as `none`). -/
theorem C3_reconstruction_crashes_on_nonstandard_source_id :
    stepsN 2 gSourceA initAlgorithm = none ∧
    (stepsN 1 gSourceA initAlgorithm).map (fun r => r.2.phase) = some .LABELING := by
  decide

/-! ## Claim C4 -/

/-- C4: on a reachable AUGMENTING state the bottleneck does not equal the
minimum residual capacity along `pathFound`.  On `gMidS` (source `x`,
intermediate node named `s`, sink `t`, edges `x→s` cap 2 and `s→t` cap 10),
three steps reach AUGMENTING with `pathFound = [s, t]` — truncated at the
hardcoded id `"s"` — and `bottleneck = 2` (the sink label's flow, the minimum
over the full chain from `x`), while the minimum residual capacity along the
reported path is 10. -/
theorem C4_bottleneck_differs_from_path_min_residual :
    (stepsN 3 gMidS initAlgorithm).map
        (fun r => (r.2.phase, r.2.pathFound, r.2.bottleneck, pathResiduals r.1.edges ["s", "t"]))
      = some (.AUGMENTING, some ["s", "t"], some 2, [some 10]) := by
  decide

/-! ## Claim C6 -/

/-- C6: a run can reach FINISHED with `maxFlow` different from the min-cut
capacity.  On `gMincut` (edges `s→a` cap 3, `s→a` cap 5, `a→t` cap 10),
sixteen steps from the initial state reach FINISHED with `maxFlow = 10`,
while the min-cut capacity of the graph is 8 (cut `{s}`): the augmenter
repeatedly adds flow to the first parallel edge instead of the one used for
labeling, over-counting the flow actually pushed. -/
theorem C6_finished_maxFlow_differs_from_mincut :
    (stepsN 16 gMincut initAlgorithm).map (fun r => (r.2.phase, r.2.maxFlow))
        = some (.FINISHED, 10) ∧
    minCutCapacity gMincut = some 8 := by
  decide

end MaxFlowViz
